import Mathlib

/-
Verification development for the onehotkeyboard repository (ee23b137.py).

The Python program parses an XML keyboard layout into a nested dictionary of
key positions (`xmlParser`), normalizes the raw coordinates into a
non-overlapping "visual keymap" (`Painter.__draw_keys`), resolves incoming
characters (including shifted characters) to visual key positions, deposits
radial clouds of sample points per keystroke (`Painter.__update_points`),
trims a copy of the point list to the most recent 3000 points for kernel
density estimation, and accumulates a running "distance travelled" metric
(`Painter.update_heatmap`).

Embedding conventions:
* Python dicts (which preserve insertion order and overwrite values in
  place) are modelled as association lists with `dictInsert` / `dictGet?`.
* Python floats are modelled as exact rationals: every coordinate produced
  by the program is built from the XML numbers by `+`, `*`, `max` and
  division by 2, and every control-flow comparison in the source
  (`distance < 1`, `pos[0] < xmax/2`, `x.size > 3000`, ...) has the same
  outcome over ℚ as over IEEE doubles for the magnitudes involved.
* A raised Python exception is modelled as an `Except.error`; the specific
  constructor records which source line raised.
* A sample point appended by `__update_points` is stored in polar form
  (center, radius, angular index, ring size); its cartesian coordinates are
  `center + radius·(cos, sin)(2π·idx/cnt)`, recovered by `SamplePoint.planar`.
-/

set_option maxRecDepth 100000

/-- A key position: the pair `(x, y)` held in the keymap dictionaries. -/
abbrev KeyPos := ℚ × ℚ

/-- Python dict assignment `d[k] = v`: overwrite in place if the key exists
(keeping its insertion position), otherwise append at the end. -/
def dictInsert {α β : Type} [DecidableEq α] : List (α × β) → α → β → List (α × β)
  | [], k, v => [(k, v)]
  | (k', v') :: rest, k, v =>
    if k' = k then (k, v) :: rest else (k', v') :: dictInsert rest k v

/-- Python dict lookup `d.get(k)` / `d[k]` with a `try` around it. -/
def dictGet? {α β : Type} [DecidableEq α] : List (α × β) → α → Option β
  | [], _ => none
  | (k', v) :: rest, k => if k' = k then some v else dictGet? rest k

/-- Python `d.update(other)`: insert every binding of `other`, in order. -/
def dictUpdate {α β : Type} [DecidableEq α] (d other : List (α × β)) : List (α × β) :=
  other.foldl (fun acc kv => dictInsert acc kv.1 kv.2) d

/-- Python's `str.lower()` (ASCII lowering; identical to Lean's
`String.toLower`, but defined by a structural map over the character list so
that it evaluates by definitional unfolding). -/
def pyLower (s : String) : String := ⟨s.data.map Char.toLower⟩

/-- Python substring test `pat in hay`. -/
def containsSub (hay pat : String) : Bool :=
  hay.toList.tails.any (fun t => pat.toList.isPrefixOf t)

/-- The error component of an `Except`, if any. -/
def errorOf {ε α : Type} : Except ε α → Option ε
  | .error e => some e
  | .ok _ => none

/-- Whether an `Except` is a success. -/
def exceptOk {ε α : Type} : Except ε α → Bool
  | .error _ => false
  | .ok _ => true

/-! ## xmlParser: layout parsing (source lines 130-342) -/

/-- `special_keys` of `xmlParser.__init__` (source lines 140-148). -/
def specialKeys : List String :=
  ["shift_l", "shift_r", "space", "backspace", "tab", "capslock", "enter"]

/-- Python's `string.printable` (digits, letters, punctuation, whitespace),
as the list of its one-character strings. -/
def printableKeys : List String :=
  ("0123456789abcdefghijklmnopqrstuvwxyzABCDEFGHIJKLMNOPQRSTUVWXYZ!\"#$%&\x27()*+,-./:;<=>?@[\\]^_\x60\x7b|\x7d~ \t\n\r\x0b\x0c").toList.map Char.toString

/-- Python's `string.ascii_uppercase` (used via the substring test
`char in string.ascii_uppercase` at source line 326). -/
def asciiUppercase : String := "ABCDEFGHIJKLMNOPQRSTUVWXYZ"

/-- `__reset_count` (source lines 193-203): a zero count for every printable
character and every special-key name. -/
def charCountInit : List (String × ℕ) :=
  (printableKeys ++ specialKeys).map (fun s => (s, 0))

/-- `__default_shift` (source lines 221-252): the built-in QWERTY shift
table, and every special key mapped to itself. -/
def defaultShiftMapping : List (String × String) :=
  ((List.range 26).map
    (fun i => ((Char.ofNat (97 + i)).toString, (Char.ofNat (65 + i)).toString)))
  ++ [("\x60", "~"), ("1", "!"), ("2", "@"), ("3", "#"), ("4", "$"), ("5", "%"),
      ("6", "^"), ("7", "&"), ("8", "*"), ("9", "("), ("0", ")"), ("-", "_"),
      ("=", "+"), ("[", "\x7b"), ("]", "\x7d"), ("\\", "|"), (";", ":"),
      ("\x27", "\""), (",", "<"), (".", ">"), ("/", "?")]
  ++ specialKeys.map (fun s => (s, s))

/-- A `key` element of the XML layout: optional `lower`/`upper` attributes
and the list of its `pos` subtrees (each with optional `x`/`y` leaves). -/
structure KeyDecl where
  lower : Option String
  upper : Option String
  positions : List (Option ℚ × Option ℚ)
deriving DecidableEq, Repr

/-- A `row` element: its `id` attribute and its `key` children in document
order. -/
structure RowDecl where
  id : String
  keys : List KeyDecl
deriving DecidableEq, Repr

/-- The whole `kbd` document: its rows in document order. -/
abbrev LayoutDesc := List RowDecl

/-- The distinct construction-time failures of `xmlParser` (all are wrapped
into the fatal `ValueError("failed to parse!")` at source line 165). -/
inductive ParseErr where
  | missingLower    -- line 289: attribute `lower` absent
  | invalidChar     -- line 303: lowered character not in `char_count`
  | duplicateKey    -- line 305: `char_count[char.lower()] > 1`
  | shiftSelf       -- line 316: "shift" inside a `lower` that has an `upper`
  | noDefaultShift  -- lines 327/337: no default shift target
  | missingPosition -- line 80: `position[0]` on an empty findall result
  | missingXY       -- lines 95/111: `x` or `y` leaf absent
  | missingHomeRow  -- line 190: no row tagged "home"
deriving DecidableEq, Repr

/-- The mutable parser state threaded through `__generate_keylist` /
`__generate_keymap`: `char_count`, `shift_mapping`, `home_row`, `keymap`. -/
structure PState where
  charCount : List (String × ℕ)
  shiftMapping : List (String × String)
  homeRow : List (String × KeyPos)
  keymap : List (String × List (String × KeyPos))
deriving DecidableEq, Repr

/-- `xmlParser.__generate_keylist` (source lines 267-342): validates one
`key` element, updates `char_count` and `shift_mapping`, and returns the
dictionary key under which the position is stored (the `lower` attribute,
lowered only in the default-shift branch, exactly as the source returns). -/
def generateKeylist (st : PState) (k : KeyDecl) : Except ParseErr (PState × String) :=
  match k.lower with
  | none => .error .missingLower
  | some lowerChar =>
    match dictGet? st.charCount (pyLower lowerChar) with
    | none => .error .invalidChar
    | some n =>
      if 1 < n then .error .duplicateKey
      else
        let st1 : PState :=
          { st with charCount := dictInsert st.charCount (pyLower lowerChar) (n + 1) }
        match k.upper with
        | some upperChar =>
          if containsSub (pyLower lowerChar) "shift" then .error .shiftSelf
          else if lowerChar ∈ specialKeys then
            .ok ({ st1 with
                    shiftMapping := dictInsert st1.shiftMapping (pyLower lowerChar) upperChar },
                 lowerChar)
          else
            .ok ({ st1 with
                    shiftMapping := dictInsert st1.shiftMapping lowerChar upperChar },
                 lowerChar)
        | none =>
          if containsSub asciiUppercase lowerChar then .error .noDefaultShift
          else
            match dictGet? defaultShiftMapping (pyLower lowerChar) with
            | none => .error .noDefaultShift
            | some target =>
              .ok ({ st1 with
                      shiftMapping := dictInsert st1.shiftMapping (pyLower lowerChar) target },
                   pyLower lowerChar)

/-- `get_positions` (source lines 63-80) followed by `get_x`/`get_y`
(source lines 83-112): take the first `pos` subtree (extra ones only print
a diagnostic), failing if there is none or if `x`/`y` is missing. -/
def getPosition (k : KeyDecl) : Except ParseErr KeyPos :=
  match k.positions with
  | [] => .error .missingPosition
  | (x?, y?) :: _ =>
    match x?, y? with
    | some x, some y => .ok (x, y)
    | _, _ => .error .missingXY

/-- One iteration of the inner loop of `__generate_keymap` (source lines
176-179): validate the key, read its position, store it in `row_map`. -/
def processKey (st : PState) (rowMap : List (String × KeyPos)) (k : KeyDecl) :
    Except ParseErr (PState × List (String × KeyPos)) :=
  match generateKeylist st k with
  | .error e => .error e
  | .ok (st', lowerKey) =>
    match getPosition k with
    | .error e => .error e
    | .ok p => .ok (st', dictInsert rowMap lowerKey p)

/-- The keys of one row folded through `processKey`. -/
def processKeys (st : PState) (rowMap : List (String × KeyPos)) :
    List KeyDecl → Except ParseErr (PState × List (String × KeyPos))
  | [] => .ok (st, rowMap)
  | k :: rest =>
    match processKey st rowMap k with
    | .error e => .error e
    | .ok (st', rowMap') => processKeys st' rowMap' rest

/-- One iteration of the outer loop of `__generate_keymap` (source lines
174-188): build the row map, merge into `home_row` when the row id is
"home" (case-insensitively), and merge rows that share an id. -/
def processRow (st : PState) (r : RowDecl) : Except ParseErr PState :=
  match processKeys st [] r.keys with
  | .error e => .error e
  | .ok (st', rowMap) =>
    let st'' :=
      if pyLower r.id = "home" then { st' with homeRow := dictUpdate st'.homeRow rowMap }
      else st'
    match dictGet? st''.keymap r.id with
    | some existing =>
      .ok { st'' with keymap := dictInsert st''.keymap r.id (dictUpdate existing rowMap) }
    | none =>
      .ok { st'' with keymap := st''.keymap ++ [(r.id, rowMap)] }

/-- The rows folded through `processRow`. -/
def processRows (st : PState) : List RowDecl → Except ParseErr PState
  | [] => .ok st
  | r :: rest =>
    match processRow st r with
    | .error e => .error e
    | .ok st' => processRows st' rest

/-- The parser's result: `keymap`, `home_row`, `shift_mapping`. -/
structure ParsedLayout where
  keymap : List (String × List (String × KeyPos))
  homeRow : List (String × KeyPos)
  shiftMapping : List (String × String)
deriving DecidableEq, Repr

/-- `xmlParser.__generate_keymap` (source lines 168-191): process every row,
then fail with the missing-home-row error if `home_row` stayed empty. -/
def generateKeymap (layout : LayoutDesc) : Except ParseErr ParsedLayout :=
  match processRows ⟨charCountInit, [], [], []⟩ layout with
  | .error e => .error e
  | .ok st =>
    if st.homeRow = [] then .error .missingHomeRow
    else .ok ⟨st.keymap, st.homeRow, st.shiftMapping⟩

/-! ## Painter: coordinate normalization (source lines 538-625) -/

/-- One sample point appended by `__update_points`, in polar form: the center
it was deposited around, the ring radius, and the angular index `idx` out of
`cnt` (the source stores the cartesian pair
`center + radius·(cos, sin)(2π·idx/cnt)`; see `SamplePoint.planar`). -/
structure SamplePoint where
  cx : ℚ
  cy : ℚ
  radius : ℚ
  idx : ℕ
  cnt : ℕ
deriving DecidableEq, Repr

/-- The cartesian coordinates of a sample point, exactly the pair computed at
source lines 455-457. -/
noncomputable def SamplePoint.planar (p : SamplePoint) : ℝ × ℝ :=
  ((p.cx : ℝ) + (p.radius : ℝ) * Real.cos (2 * Real.pi * p.idx / p.cnt),
   (p.cy : ℝ) + (p.radius : ℝ) * Real.sin (2 * Real.pi * p.idx / p.cnt))

/-- The `while distance < 1` loop of `__update_points` (source lines
449-460), with a fuel argument for the recursion: `points` is tripled
*before* a ring is emitted, each ring places `points` points at angular
indices `0, …, points−1`, and the radius doubles after each ring. The loop
always terminates (the radius doubles), so any fuel ≥ 4 is exact for the
source's fixed start 0.1. -/
def updatePointsAux (pos : KeyPos) : ℕ → ℚ → ℕ → List SamplePoint
  | 0, _, _ => []
  | fuel + 1, dist, points =>
    if dist < 1 then
      ((List.range (points * 3)).map
        (fun i => ⟨pos.1, pos.2, dist, i, points * 3⟩))
      ++ updatePointsAux pos fuel (dist * 2) (points * 3)
    else []

/-- `Painter.__update_points` (source lines 442-460): `points = 1`,
`distance = 0.1`, `delta = 2`. -/
def updatePoints (pos : KeyPos) : List SamplePoint :=
  updatePointsAux pos 64 (1/10) 1

/-- Append `(char, x)` to the `y` group of `ordered_keymap` (source lines
556-559): extend the group in place if `y` was seen, else start a new one. -/
def groupAppend : List (ℚ × List (String × ℚ)) → ℚ → (String × ℚ) →
    List (ℚ × List (String × ℚ))
  | [], y, cx => [(y, [cx])]
  | (y', l) :: rest, y, cx =>
    if y' = y then (y', l ++ [cx]) :: rest else (y', l) :: groupAppend rest y cx

/-- The `ordered_keymap` built at source lines 552-559: every key of every
row of the keymap, grouped by its raw `y` coordinate, in iteration order. -/
def orderKeymap (km : List (String × List (String × KeyPos))) :
    List (ℚ × List (String × ℚ)) :=
  km.foldl
    (fun acc row =>
      row.2.foldl (fun acc2 kv => groupAppend acc2 kv.2.2 (kv.1, kv.2.1)) acc)
    []

/-- The result of walking one sorted row in `__draw_keys`: the row's
`visual_keymap` dictionary, the adjusted x coordinates in walk order (the
stretch of `xdata` appended for this row), and the outgoing `xsize`,
`xmax`, `ymax`. -/
structure RowOut where
  entries : List (String × KeyPos)
  xs : List ℚ
  xsize : ℚ
  xmax : ℚ
  ymax : ℚ

/-- The per-key loop of `__draw_keys` (source lines 575-621).  Note the
source's quirks, kept faithfully: the adjusted x
`max(x, prev_x + xsize + padding)` uses the `xsize` left over from the
*previous* iteration (which includes that key's first/last-in-row bonuses of
1.5 and 1.2); `xmax` is raised to `adjusted_x + xsize + padding` with the
*current* key's bonuses; and `ymax` is compared against `y + ysize` but set
to `y + ysize + padding`. -/
def drawRowAux (y : ℚ) (total : ℕ) :
    List (String × ℚ) → ℚ → ℕ → ℚ → ℚ → ℚ → List (String × KeyPos) → RowOut
  | [], _, _, xsize, xmax, ymax, accE => ⟨accE, [], xsize, xmax, ymax⟩
  | (c, x) :: rest, prevX, count, xsize, xmax, ymax, accE =>
    let xa := max x (prevX + xsize + 3/10)
    let xsize' : ℚ :=
      1 + (if count = 0 then 3/2 else 0) + (if count = total - 1 then 6/5 else 0)
    let xmax' := if xmax < xa + xsize' + 3/10 then xa + xsize' + 3/10 else xmax
    let ymax' := if ymax < y + 1 then y + 1 + 3/10 else ymax
    let r := drawRowAux y total rest xa (count + 1) xsize' xmax' ymax'
      (dictInsert accE c (xa, y))
    ⟨r.entries, xa :: r.xs, r.xsize, r.xmax, r.ymax⟩

/-- The state threaded across rows in `__draw_keys`: the `visual_keymap`
under construction, the adjusted x coordinates per row (the content of
`xdata`, segmented by row), and the carried `xsize`, `xmax`, `ymax`. -/
structure DrawAcc where
  vk : List (ℚ × List (String × KeyPos))
  xrows : List (ℚ × List ℚ)
  xsize : ℚ
  xmax : ℚ
  ymax : ℚ

/-- The per-row loop of `__draw_keys` (source lines 563-621): sort each `y`
group by raw x.  Python's `list.sort` is stable; so is insertion sort, and
any two stable sorts by the same key agree, so this is the same list.
`prev_x` starts at the first sorted raw x before the walk.  A `y` group is never empty by construction of
`ordered_keymap`; the `[]` case is unreachable and leaves the state as is. -/
def drawRows : List (ℚ × List (String × ℚ)) → DrawAcc → DrawAcc
  | [], acc => acc
  | (y, lst) :: rest, acc =>
    let sorted := List.insertionSort (fun a b => a.2 ≤ b.2) lst
    match sorted with
    | [] => drawRows rest acc
    | (_, x0) :: _ =>
      let r := drawRowAux y sorted.length sorted x0 0 acc.xsize acc.xmax acc.ymax []
      drawRows rest
        ⟨acc.vk ++ [(y, r.entries)], acc.xrows ++ [(y, r.xs)], r.xsize, r.xmax, r.ymax⟩

/-- `Painter.__draw_keys` (source lines 538-625): `xsize` starts at 1.0,
`xmax` and `ymax` at 0.0, `padding` is 0.3 throughout. -/
def drawKeys (km : List (String × List (String × KeyPos))) : DrawAcc :=
  drawRows (orderKeymap km) ⟨[], [], 1, 0, 0⟩

/-! ## Painter: character resolution and heat deposition (source lines 345-533) -/

/-- The `special_keys` dictionary of `Painter.__init__` (source lines
360-364).  Note the source keys the "enter" alias on the two-character
string "/r", not on the carriage-return character "\r". -/
def painterSpecialKeys : List (String × String) :=
  [(" ", "space"), ("\t", "tab"), ("/r", "enter"), ("\x7f", "backspace")]

/-- The alias substitution at source lines 470-475. -/
def substSpecial (c : String) : String :=
  (dictGet? painterSpecialKeys c).getD c

/-- `find_nested_key` (source lines 115-127): first row dictionary of the
visual keymap that holds the key wins. -/
def findNestedKey (nested : List (ℚ × List (String × KeyPos))) (key : String) :
    Option KeyPos :=
  match nested with
  | [] => none
  | (_, d) :: rest =>
    match dictGet? d key with
    | some v => some v
    | none => findNestedKey rest key

/-- The runtime failures of `Painter.update_heatmap`, all uncaught in the
source and fatal to the session (`main` catches them at top level and
gives up). -/
inductive RunErr where
  | notFound         -- line 498: `pos[0]` with `pos = None` (TypeError)
  | missingShift     -- line 492: `shift_pos[0]` with `shift_pos = None`
  | emptyHome        -- line 498: `min([])` over an empty home row
  | insufficientData -- line 517: `gaussian_kde` over an empty point array
deriving DecidableEq, Repr

/-- The immutable data `update_heatmap` works with: the visual keymap with
its extents built by `__draw_keys`, plus the parser's `shift_mapping` and
(raw-coordinate) `home_row`. -/
structure Painter where
  visualKeymap : List (ℚ × List (String × KeyPos))
  xrows : List (ℚ × List ℚ)
  xmax : ℚ
  ymax : ℚ
  shiftMapping : List (String × String)
  homeRow : List (String × KeyPos)
deriving DecidableEq, Repr

/-- `Painter.__init__` as far as the heat engine is concerned: normalize the
keymap and keep the parser's shift mapping and home row. -/
def mkPainter (p : ParsedLayout) : Painter :=
  let d := drawKeys p.keymap
  ⟨d.vk, d.xrows, d.xmax, d.ymax, p.shiftMapping, p.homeRow⟩

/-- The `for lower, upper in self.shift_mapping.items()` loop at source
lines 482-495: the first entry whose target equals the character *and*
whose base key is present resolves; an entry whose target matches but whose
base key is absent only prints and continues; if the loop falls through,
`pos` is still `None` and line 498 raises. On a hit the base ring is
deposited, then the shift key is chosen by `pos[0] < xmax/2`
(right shift for the left half, left shift for the right half) and its ring
is deposited — or line 492 raises if that shift key is not in the layout. -/
def shiftLoop (cfg : Painter) (c : String) :
    List (String × String) → Except RunErr (KeyPos × List SamplePoint)
  | [] => .error .notFound
  | (lower, upper) :: rest =>
    if upper = c then
      match findNestedKey cfg.visualKeymap lower with
      | some pos =>
        let basePts := updatePoints (pos.1 + 1/2, pos.2 + 1/2)
        let shiftChar := if pos.1 < cfg.xmax / 2 then "shift_r" else "shift_l"
        match findNestedKey cfg.visualKeymap shiftChar with
        | none => .error .missingShift
        | some sp => .ok (pos, basePts ++ updatePoints (sp.1 + 1/2, sp.2 + 1/2))
      | none => shiftLoop cfg c rest
    else shiftLoop cfg c rest

/-- The per-character body of `update_heatmap` (source lines 469-497):
substitute control aliases, look the character up directly, else run the
shift-mapping loop.  Returns the resolved position (the `pos` used by the
distance accumulation at line 498) together with the sample points
appended. -/
def resolveChar (cfg : Painter) (c0 : String) :
    Except RunErr (KeyPos × List SamplePoint) :=
  let c := substSpecial c0
  match findNestedKey cfg.visualKeymap c with
  | some pos => .ok (pos, updatePoints (pos.1 + 1/2, pos.2 + 1/2))
  | none => shiftLoop cfg c cfg.shiftMapping

/-- The `for char in chars` loop of `update_heatmap` including the distance
accumulation at line 498: appends each character's sample points to the
persistent point list and records the resolved position for each character
(the distance contribution is `min` over home-row entries of the Euclidean
distance to that position, summed by `distTravelled` below; line 498's
`min([...])` raises on an empty home row). -/
def processChars (cfg : Painter) (st : List SamplePoint) (acc : List KeyPos) :
    List String → Except RunErr (List SamplePoint × List KeyPos)
  | [] => .ok (st, acc)
  | c :: rest =>
    match resolveChar cfg c with
    | .error e => .error e
    | .ok (pos, pts) =>
      if cfg.homeRow = [] then .error .emptyHome
      else processChars cfg (st ++ pts) (acc ++ [pos]) rest

/-- `maxsize = 3000` (source line 510). -/
def maxsize : ℕ := 3000

/-- The trim at source lines 510-513: the *copy* of the point list handed to
the density estimator keeps only the most recent `maxsize` points, deleting
from the front; the persistent list itself is not shrunk. -/
def trimWindow (st : List SamplePoint) : List SamplePoint :=
  if maxsize < st.length then st.drop (st.length - maxsize) else st

/-- What one `update_heatmap` call leaves behind: the persistent point list
(`self.heatmap_pointsx/y`, which the trim never touches), the trimmed copy
fed to `gaussian_kde`, and the per-character resolved positions. -/
structure UpdateResult where
  persistent : List SamplePoint
  kdeInput : List SamplePoint
  positions : List KeyPos
deriving DecidableEq, Repr

/-- `Painter.update_heatmap` (source lines 462-533): process the characters,
then build the trimmed copy for the density fit.  `gaussian_kde` on an
empty array raises (the density fit itself is numeric output and does not
affect the engine's state, so it is not modelled beyond that failure). -/
def updateHeatmap (cfg : Painter) (st : List SamplePoint) (chars : List String) :
    Except RunErr UpdateResult :=
  match processChars cfg st [] chars with
  | .error e => .error e
  | .ok (st', ps) =>
    if trimWindow st' = [] then .error .insufficientData
    else .ok ⟨st', trimWindow st', ps⟩

/-- Python's `min` over a list (the `[]` case raises in Python; it is only
reached here behind the `emptyHome` guard of `processChars`, so the default
is never used on a source-reachable path). -/
noncomputable def pyMin0 : List ℝ → ℝ
  | [] => 0
  | x :: xs => xs.foldl min x

/-- The distance contribution of one resolved position (source line 498):
minimum over the home-row entries (raw declared coordinates) of the
Euclidean distance to the resolved (adjusted visual) position. -/
noncomputable def homeDistance (homes : List (String × KeyPos)) (pos : KeyPos) : ℝ :=
  pyMin0 (homes.map
    (fun h => Real.sqrt ((((pos.1 - h.2.1)^2 + (pos.2 - h.2.2)^2 : ℚ) : ℝ))))

/-- `dist_travelled` accumulated over the characters of one update. -/
noncomputable def distTravelled (cfg : Painter) (ps : List KeyPos) : ℝ :=
  (ps.map (homeDistance cfg.homeRow)).sum

/-! ## Painter: the density-estimation grid (source lines 415-418) -/

/-- `mesh_granularity` (source line 415). -/
def meshGranularity : ℕ := 1000

/-- The number of grid points `np.mgrid` places along one axis for the slice
`-1 : extent : (extent*1000)**0.5 * 1j`: the integer truncation of
`sqrt(1000·extent)`.  Over the nonnegative values involved,
`⌊√q⌋ = Nat.sqrt ⌊q⌋`. -/
def gridAxisCount (extent : ℚ) : ℕ :=
  Nat.sqrt (⌊(meshGranularity : ℚ) * extent⌋).toNat

/-- The axis sample values of the `np.mgrid` slice: `n` points evenly spaced
from −1 to `extent` inclusive. -/
def gridAxis (extent : ℚ) : List ℚ :=
  (List.range (gridAxisCount extent)).map
    (fun i : ℕ => -1 + (i : ℚ) * ((extent + 1) / ((gridAxisCount extent : ℚ) - 1)))

/-- The total number of cells of the density grid `zi` (source lines
416-425). -/
def gridCellCount (xmax ymax : ℚ) : ℕ :=
  gridAxisCount xmax * gridAxisCount ymax

/-! ## Example layouts

The end-to-end scenario layout of the spec: a single home row with `a` at
(0,0) (with explicit `upper="A"`), `s` at (1,0), and `shift_l` (mapped to
itself through the default table — an explicit `upper` on a shift key is
rejected by the parser) at (2,0).  `exLayoutR` additionally declares
`shift_r` at (3,0). -/

/-- The spec's end-to-end layout: home row `a`(0,0), `s`(1,0),
`shift_l`(2,0). -/
def exLayout : LayoutDesc :=
  [⟨"home",
    [⟨some "a", some "A", [(some 0, some 0)]⟩,
     ⟨some "s", none, [(some 1, some 0)]⟩,
     ⟨some "shift_l", none, [(some 2, some 0)]⟩]⟩]

/-- `exLayout` extended with a `shift_r` key at (3,0). -/
def exLayoutR : LayoutDesc :=
  [⟨"home",
    [⟨some "a", some "A", [(some 0, some 0)]⟩,
     ⟨some "s", none, [(some 1, some 0)]⟩,
     ⟨some "shift_l", none, [(some 2, some 0)]⟩,
     ⟨some "shift_r", none, [(some 3, some 0)]⟩]⟩]

/-- The parse result of an `Except`, or a fallback (used only after the
parse has been proven to succeed). -/
def parsedOr (d : ParsedLayout) : Except ParseErr ParsedLayout → ParsedLayout
  | .ok p => p
  | .error _ => d

/-- The parsed form of `exLayout`. -/
def exParsed : ParsedLayout := parsedOr ⟨[], [], []⟩ (generateKeymap exLayout)

/-- The parsed form of `exLayoutR`. -/
def exParsedR : ParsedLayout := parsedOr ⟨[], [], []⟩ (generateKeymap exLayoutR)

/-- The painter built from `exLayout`. -/
def exCfg : Painter := mkPainter exParsed

/-- The painter built from `exLayoutR`. -/
def exCfgR : Painter := mkPainter exParsedR

/-! ## Claim C3: duplicate key detection -/

/-- A layout declaring the character `a` exactly twice (both on the home
row, so the only possible rejection is the duplicate check). -/
def dupLayout : LayoutDesc :=
  [⟨"home",
    [⟨some "a", none, [(some 0, some 0)]⟩,
     ⟨some "a", none, [(some 1, some 0)]⟩]⟩]

/-- A layout declaring the character `a` three times. -/
def tripLayout : LayoutDesc :=
  [⟨"home",
    [⟨some "a", none, [(some 0, some 0)]⟩,
     ⟨some "a", none, [(some 1, some 0)]⟩,
     ⟨some "a", none, [(some 2, some 0)]⟩]⟩]

/-- Claim C3, evaluated at the failing input: a layout declaring the same
character exactly twice is *accepted* by `generateKeymap` — the duplicate
guard `char_count[char.lower()] > 1` (source line 304) only fires once the
count has already reached 2, i.e. at the third declaration — although the
source's own error message says a key "can only be defined once".  A layout
with three declarations is rejected with the duplicate-key error. -/
theorem C3_duplicate_accepted :
    exceptOk (generateKeymap dupLayout) = true
    ∧ errorOf (generateKeymap tripLayout) = some .duplicateKey :=
  ⟨by with_unfolding_all rfl, by with_unfolding_all rfl⟩

/-! ## Claim C4: the radial sample pattern -/

/-- The ring structure `__update_points` actually generates: radii 0.1, 0.2,
0.4, 0.8 (doubling, stopping once ≥ 1) with 3, 9, 27, 81 points (tripled
*before* each ring is emitted). -/
def ringSpecList : List (ℚ × ℕ) := [(1/10, 3), (1/5, 9), (2/5, 27), (4/5, 81)]

/-- The sample points those rings contain: for each ring `(r, n)`, the `n`
points at angular fractions `i/n` of a full turn, `i = 0, …, n−1`. -/
def ringSpecPoints (pos : KeyPos) : List SamplePoint :=
  ringSpecList.flatMap
    (fun rc => (List.range rc.2).map (fun i => ⟨pos.1, pos.2, rc.1, i, rc.2⟩))

/-- Claim C4 (counterexample): the claim says the point count starts at 1,
so the innermost ring (radius 0.1) should hold exactly one point; the code
triples the count *before* emitting a ring, so the radius-0.1 ring holds 3
points. -/
theorem C4_first_ring_count :
    ((updatePoints (0, 0)).filter (fun p => p.radius = 1/10)).length = 3
    ∧ (3 : ℕ) ≠ 1 :=
  ⟨by with_unfolding_all rfl, by decide⟩

/-- Claim C4 (amended): one deposit generates concentric rings starting at
radius 0.1, the radius doubling after each ring and stopping once it
reaches 1, with the point count tripling *before* each ring (3, 9, 27, 81
points) and points placed at equal angular spacing `2π·i/count`: the
generated list is exactly `ringSpecPoints`. -/
theorem C4_ring_structure (pos : KeyPos) : updatePoints pos = ringSpecPoints pos := by
  with_unfolding_all rfl

/-! ## Claim C8: control-character aliases -/

/-- Claim C8, evaluated at the failing input: the alias table maps the
two-character string "/r" to "enter" (source line 363), so the actual
carriage-return character "\r" is *not* substituted before lookup.  The
other three aliases behave as the claim says. -/
theorem C8_carriage_return_alias :
    substSpecial "\r" = "\r" ∧ substSpecial "/r" = "enter"
    ∧ substSpecial " " = "space" ∧ substSpecial "\t" = "tab"
    ∧ substSpecial "\x7f" = "backspace" :=
  ⟨by with_unfolding_all rfl, by with_unfolding_all rfl, by with_unfolding_all rfl,
   by with_unfolding_all rfl, by with_unfolding_all rfl⟩

/-! ## Claim C7: the density grid -/

/-- Claim C7 (counterexample): at extents `xmax = ymax = 4` the grid has
`⌊√4000⌋² = 63² = 3969` cells, while `granularity·xmax·ymax = 16000`; the
two differ by more than a factor of 4, so the claimed cell count
`≈ granularity·xmax·ymax` is wrong (each axis gets `√(1000·extent)`
points, so the total is `≈ 1000·√(xmax·ymax)`). -/
theorem C7_cell_count_cex :
    gridCellCount 4 4 = 3969
    ∧ meshGranularity * 4 * 4 = 16000
    ∧ 4 * 3969 < 16000 := by
  have h : gridAxisCount 4 = 63 := by
    have h0 : Int.toNat (4000 : ℤ) = (4000 : ℕ) := rfl
    norm_num [gridAxisCount, meshGranularity, h0]
  exact ⟨by rw [gridCellCount, h], by norm_num [meshGranularity], by norm_num⟩

/-! ## Claim C1: unresolved characters -/

/-- If no shift-mapping entry targets the character, the loop of source
lines 482-495 falls through with `pos = None`, and line 498 raises. -/
theorem shiftLoop_no_target (cfg : Painter) (c : String) :
    ∀ sm : List (String × String), (∀ p ∈ sm, p.2 ≠ c) →
      shiftLoop cfg c sm = .error .notFound := by
  intro sm
  induction sm with
  | nil => intro _; rfl
  | cons p rest ih =>
    intro h
    obtain ⟨lower, upper⟩ := p
    have hp : upper ≠ c := h (lower, upper) (List.mem_cons_self _ _)
    simp only [shiftLoop, if_neg hp]
    exact ih (fun q hq => h q (List.mem_cons_of_mem _ hq))

/-- Claim C1 (counterexample): "q" is neither in the example layout's
visual keymap nor a shift target, and processing it does *not* complete
normally: `update_heatmap` raises (the `NoneType` dereference of source
line 498). -/
theorem C1_unresolved_cex :
    errorOf (updateHeatmap exCfg [] ["q"]) = some .notFound := by
  with_unfolding_all rfl

/-- Claim C1 (amended): a character that resolves to no key position (not in
the visual keymap, no shift-mapping target equal to it) makes the update
*raise* instead of completing: the resolution leaves `pos = None` and the
distance accumulation of line 498 dereferences it.  No sample points are
appended for such a character and no distance is recorded, because the
update never completes (the host's top-level handler then ends the
session). -/
theorem C1_unresolved_raises (cfg : Painter) (st : List SamplePoint) (c : String)
    (hdirect : findNestedKey cfg.visualKeymap (substSpecial c) = none)
    (hshift : ∀ p ∈ cfg.shiftMapping, p.2 ≠ substSpecial c) :
    updateHeatmap cfg st [c] = .error .notFound := by
  have hres : resolveChar cfg c = .error .notFound := by
    simp only [resolveChar, hdirect]
    exact shiftLoop_no_target cfg _ _ hshift
  simp only [updateHeatmap, processChars, hres]

/-- Witness for `C1_unresolved_raises` at the example layout and "q". -/
theorem C1_unresolved_raises_witness :
    updateHeatmap exCfg [] ["q"] = .error .notFound :=
  C1_unresolved_raises exCfg [] "q" (by with_unfolding_all rfl)
    (by
      have h : exCfg.shiftMapping = [("a", "A"), ("s", "S"), ("shift_l", "shift_l")] := by
        with_unfolding_all rfl
      rw [h]
      decide)

/-! ## Claim C6: the end-to-end shifted-character scenario -/

/-- Claim C6 (counterexample): in the spec's layout (home row `a`(0,0),
`s`(1,0), `shift_l`(2,0), upper of `a` = "A"), resolving "A" does *not*
return the position of `a` plus the position of `shift_l`: the base key `a`
sits in the left half (adjusted x 1.3 < xmax/2), so the source picks
"shift_r" (line 489), which this layout does not declare, and the
resolution raises at line 492. -/
theorem C6_shift_l_cex :
    errorOf (resolveChar exCfg "A") = some .missingShift
    ∧ findNestedKey exCfg.visualKeymap "a" = some (13/10, 0)
    ∧ ((if (13/10 : ℚ) < exCfg.xmax / 2 then "shift_r" else "shift_l") = "shift_r")
    ∧ findNestedKey exCfg.visualKeymap "shift_r" = none :=
  ⟨by with_unfolding_all rfl, by with_unfolding_all rfl,
   by with_unfolding_all rfl, by with_unfolding_all rfl⟩

/-- Claim C6 (amended): the modifier the code associates with "A" is the
*right* shift (left-half base key).  In the spec's exact layout, which has
no `shift_r` key, resolving "A" raises; once `shift_r` is also declared
(at raw (3,0)), resolving "A" returns the position of `a` plus the position
of `shift_r` — not `shift_l` — and heat is deposited around both. -/
theorem C6_shift_r_resolution :
    resolveChar exCfgR "A" =
      .ok ((13/10, 0),
        updatePoints (13/10 + 1/2, 0 + 1/2) ++ updatePoints (67/10 + 1/2, 0 + 1/2))
    ∧ findNestedKey exCfgR.visualKeymap "shift_r" = some (67/10, 0)
    ∧ findNestedKey exCfgR.visualKeymap "shift_l" = some (27/5, 0)
    ∧ errorOf (resolveChar exCfg "A") = some .missingShift :=
  ⟨by with_unfolding_all rfl, by with_unfolding_all rfl,
   by with_unfolding_all rfl, by with_unfolding_all rfl⟩

/-! ## Claim C5: shifted-character resolution -/

/-- The shift-mapping loop resolves at the first entry whose target matches
and whose base key is present: entries before it either target another
character or have an absent base key. -/
theorem shiftLoop_first_hit (cfg : Painter) (c lower : String)
    (rest : List (String × String)) (pos spos : KeyPos)
    (hbase : findNestedKey cfg.visualKeymap lower = some pos)
    (hshift : findNestedKey cfg.visualKeymap
        (if cfg.xmax / 2 ≤ pos.1 then "shift_l" else "shift_r") = some spos) :
    ∀ pre : List (String × String),
      (∀ p ∈ pre, p.2 = c → findNestedKey cfg.visualKeymap p.1 = none) →
      shiftLoop cfg c (pre ++ (lower, c) :: rest) =
        .ok (pos, updatePoints (pos.1 + 1/2, pos.2 + 1/2)
                  ++ updatePoints (spos.1 + 1/2, spos.2 + 1/2)) := by
  have hflip : (if pos.1 < cfg.xmax / 2 then "shift_r" else "shift_l")
      = (if cfg.xmax / 2 ≤ pos.1 then "shift_l" else "shift_r") := by
    rcases lt_or_le pos.1 (cfg.xmax / 2) with h | h
    · rw [if_pos h, if_neg (not_le.mpr h)]
    · rw [if_neg (not_lt.mpr h), if_pos h]
  intro pre
  induction pre with
  | nil =>
    intro _
    simp only [List.nil_append, shiftLoop, eq_self_iff_true, ite_true, hbase, hflip, hshift]
  | cons p pre' ih =>
    intro hpre
    obtain ⟨l', u'⟩ := p
    have hrec := ih (fun q hq hq2 => hpre q (List.mem_cons_of_mem _ hq) hq2)
    by_cases hu : u' = c
    · have hnone : findNestedKey cfg.visualKeymap l' = none :=
        hpre (l', u') (List.mem_cons_self _ _) hu
      simp only [List.cons_append, shiftLoop, if_pos hu, hnone]
      exact hrec
    · simp only [List.cons_append, shiftLoop, if_neg hu]
      exact hrec

/-- Claim C5: for a character found only as a shift-mapping target (not a
control alias, absent from the visual keymap), the first shift-mapping
entry whose target matches and whose base key resolves determines the
result: the base key's position is returned, the modifier is the *left*
shift exactly when the base key lies in the right half (`xmax/2 ≤ x`) and
the *right* shift otherwise, and sample rings are deposited around both the
base key's center and the modifier's center. -/
theorem C5_shift_resolution (cfg : Painter) (c lower : String)
    (pre rest : List (String × String)) (pos spos : KeyPos)
    (hsub : substSpecial c = c)
    (hdirect : findNestedKey cfg.visualKeymap c = none)
    (hsm : cfg.shiftMapping = pre ++ (lower, c) :: rest)
    (hpre : ∀ p ∈ pre, p.2 = c → findNestedKey cfg.visualKeymap p.1 = none)
    (hbase : findNestedKey cfg.visualKeymap lower = some pos)
    (hshift : findNestedKey cfg.visualKeymap
        (if cfg.xmax / 2 ≤ pos.1 then "shift_l" else "shift_r") = some spos) :
    resolveChar cfg c =
      .ok (pos, updatePoints (pos.1 + 1/2, pos.2 + 1/2)
                ++ updatePoints (spos.1 + 1/2, spos.2 + 1/2)) := by
  simp only [resolveChar, hsub, hdirect, hsm]
  exact shiftLoop_first_hit cfg c lower rest pos spos hbase hshift pre hpre

/-- Witness for `C5_shift_resolution`: resolving "A" on the layout with
both shift keys activates `a` (left half, adjusted x 1.3 < xmax/2 = 4.6)
and `shift_r` at (6.7, 0). -/
theorem C5_shift_resolution_witness :
    resolveChar exCfgR "A" =
      .ok ((13/10, 0),
        updatePoints ((13:ℚ)/10 + 1/2, (0:ℚ) + 1/2)
        ++ updatePoints ((67:ℚ)/10 + 1/2, (0:ℚ) + 1/2)) :=
  C5_shift_resolution exCfgR "A" "a" []
    [("s", "S"), ("shift_l", "shift_l"), ("shift_r", "shift_r")]
    (13/10, 0) (67/10, 0)
    (by with_unfolding_all rfl)
    (by with_unfolding_all rfl)
    (by with_unfolding_all rfl)
    (by intro p hp; cases hp)
    (by with_unfolding_all rfl)
    (by with_unfolding_all rfl)

/-! ## Claim C2: the sample window and its trim -/

/-- The sample points one deposit at the center of key `a` of the example
layout generates (adjusted position (1.3, 0), center (1.8, 0.5)). -/
def ptsA : List SamplePoint := updatePoints (13/10 + 1/2, 0 + 1/2)

/-- The trim of source lines 510-513 in closed form: it always yields the
suffix of the most recent `maxsize` points (dropping from the front, i.e.
oldest first), and its length is `min n maxsize`. -/
theorem trimWindow_drop (st : List SamplePoint) :
    trimWindow st = st.drop (st.length - maxsize)
    ∧ (trimWindow st).length = min st.length maxsize := by
  unfold trimWindow
  by_cases h : maxsize < st.length
  · rw [if_pos h]
    refine ⟨rfl, ?_⟩
    rw [List.length_drop]
    omega
  · rw [if_neg h]
    have h0 : st.length - maxsize = 0 := by omega
    rw [h0, List.drop_zero]
    exact ⟨rfl, by omega⟩

/-- One step of the character loop, for a resolved character and a nonempty
home row: the character's points are appended and its position recorded. -/
theorem processChars_cons (cfg : Painter) (st : List SamplePoint) (acc : List KeyPos)
    (c : String) (rest : List String) (pos : KeyPos) (pts : List SamplePoint)
    (hres : resolveChar cfg c = .ok (pos, pts)) (hhome : cfg.homeRow ≠ []) :
    processChars cfg st acc (c :: rest) = processChars cfg (st ++ pts) (acc ++ [pos]) rest := by
  simp only [processChars, hres, if_neg hhome]

/-- Processing `n` copies of "a" on the example layout succeeds and appends
exactly 120 points per character to the persistent list. -/
theorem processChars_replicate_a (n : ℕ) :
    ∀ st acc, ∃ st' acc',
      processChars exCfg st acc (List.replicate n "a") = .ok (st', acc')
      ∧ st'.length = st.length + 120 * n := by
  induction n with
  | zero =>
    intro st acc
    exact ⟨st, acc, rfl, by simp⟩
  | succ n ih =>
    intro st acc
    have hres : resolveChar exCfg "a" = .ok ((13/10, 0), ptsA) := by
      with_unfolding_all rfl
    have hlen : ptsA.length = 120 := by with_unfolding_all rfl
    have hhome : exCfg.homeRow ≠ [] := by
      have h : exCfg.homeRow = [("a", (0, 0)), ("s", (1, 0)), ("shift_l", (2, 0))] := by
        with_unfolding_all rfl
      rw [h]
      simp
    obtain ⟨st', acc', heq, hl⟩ := ih (st ++ ptsA) (acc ++ [(13/10, 0)])
    refine ⟨st', acc', ?_, ?_⟩
    · rw [List.replicate_succ,
        processChars_cons exCfg st acc "a" (List.replicate n "a") (13/10, 0) ptsA hres hhome]
      exact heq
    · rw [hl, List.length_append, hlen]
      ring

/-- Claim C2 (counterexample): a single update processing 26 resolved
characters (26 · 120 = 3120 deposited points) completes and leaves the
*persistent* stored point list at 3120 points — more than 3000.  Only the
per-update copy handed to the density estimator is trimmed to 3000. -/
theorem C2_window_growth_cex :
    (updateHeatmap exCfg [] (List.replicate 26 "a")).toOption.map
      (fun u => (u.persistent.length, u.kdeInput.length)) = some (3120, 3000)
    ∧ 3000 < 3120 := by
  obtain ⟨st', acc', heq, hl⟩ := processChars_replicate_a 26 [] []
  have hlen : st'.length = 3120 := by simpa using hl
  have hkde : (trimWindow st').length = 3000 := by
    rw [(trimWindow_drop st').2, hlen]
    decide
  have hne : ¬(trimWindow st' = []) := by
    intro h0
    rw [h0] at hkde
    simp at hkde
  refine ⟨?_, by norm_num⟩
  simp only [updateHeatmap, heq, if_neg hne, Except.toOption, Option.map]
  rw [hlen, hkde]

/-- Claim C2 (amended): after an update completes, the copy of the window
handed to the density estimator is the persistent list with everything but
the most recent 3000 points deleted from the front (oldest evicted first);
its size never exceeds 3000 (it is `min n 3000`).  The persistent list
itself is never trimmed and grows without bound (see the counterexample). -/
theorem C2_kde_window_bound (cfg : Painter) (st : List SamplePoint)
    (chars : List String) (r : UpdateResult)
    (h : updateHeatmap cfg st chars = .ok r) :
    r.kdeInput = r.persistent.drop (r.persistent.length - maxsize)
    ∧ r.kdeInput.length = min r.persistent.length maxsize := by
  cases hp : processChars cfg st [] chars with
  | error e =>
    simp only [updateHeatmap, hp] at h
    exact Except.noConfusion h
  | ok res =>
    obtain ⟨st', acc'⟩ := res
    simp only [updateHeatmap, hp] at h
    by_cases hk : trimWindow st' = []
    · rw [if_pos hk] at h
      exact Except.noConfusion h
    · rw [if_neg hk] at h
      injection h with h2
      subst h2
      exact trimWindow_drop st'

/-- Witness for `C2_kde_window_bound` at a one-character update. -/
theorem C2_kde_window_bound_witness :
    ptsA = ptsA.drop (ptsA.length - maxsize)
    ∧ ptsA.length = min ptsA.length maxsize :=
  C2_kde_window_bound exCfg [] ["a"] ⟨ptsA, ptsA, [(13/10, 0)]⟩
    (by
      have hres : resolveChar exCfg "a" = .ok ((13/10, 0), ptsA) := by
        with_unfolding_all rfl
      have hhome : exCfg.homeRow ≠ [] := by
        have h : exCfg.homeRow = [("a", (0, 0)), ("s", (1, 0)), ("shift_l", (2, 0))] := by
          with_unfolding_all rfl
        rw [h]
        simp
      have h1 : processChars exCfg [] [] ["a"] = .ok (ptsA, [(13/10, 0)]) := by
        rw [processChars_cons exCfg [] [] "a" [] (13/10, 0) ptsA hres hhome,
          List.nil_append, List.nil_append]
        rfl
      have hlen : ptsA.length = 120 := by with_unfolding_all rfl
      have hne : ptsA ≠ [] := by
        intro hc
        rw [hc] at hlen
        exact absurd hlen (by decide)
      have h2 : trimWindow ptsA = ptsA := by
        unfold trimWindow
        rw [hlen]
        rfl
      simp only [updateHeatmap, h1, h2, if_neg hne])

/-! ## Claim C9: non-overlap of adjusted x coordinates -/

/-- Walking one row with an incoming `xsize ≥ 1` keeps `xsize ≥ 1`, makes
every emitted adjusted x at least `prev_x + xsize + padding`, and therefore
leaves consecutive adjusted xs at least `1 + 0.3` apart. -/
theorem drawRowAux_xs_chain (y : ℚ) (total : ℕ) :
    ∀ (l : List (String × ℚ)) (prevX : ℚ) (count : ℕ) (xsize xmax ymax : ℚ)
      (accE : List (String × KeyPos)),
      1 ≤ xsize →
      1 ≤ (drawRowAux y total l prevX count xsize xmax ymax accE).xsize
      ∧ (∀ z ∈ (drawRowAux y total l prevX count xsize xmax ymax accE).xs.head?,
          prevX + xsize + 3/10 ≤ z)
      ∧ List.Chain' (fun a b => a + 1 + 3/10 ≤ b)
          (drawRowAux y total l prevX count xsize xmax ymax accE).xs := by
  intro l
  induction l with
  | nil =>
    intro prevX count xsize xmax ymax accE h1
    exact ⟨h1, by simp [drawRowAux], by simp [drawRowAux]⟩
  | cons p rest ih =>
    intro prevX count xsize xmax ymax accE h1
    obtain ⟨c, x⟩ := p
    have hxs1 : 1 ≤ (1 : ℚ) + (if count = 0 then (3:ℚ)/2 else 0)
        + (if count = total - 1 then (6:ℚ)/5 else 0) := by
      have ha : (0:ℚ) ≤ (if count = 0 then (3:ℚ)/2 else 0) := by split <;> norm_num
      have hb : (0:ℚ) ≤ (if count = total - 1 then (6:ℚ)/5 else 0) := by split <;> norm_num
      linarith
    obtain ⟨ih1, ih2, ih3⟩ :=
      ih (max x (prevX + xsize + 3/10)) (count + 1)
        ((1 : ℚ) + (if count = 0 then (3:ℚ)/2 else 0)
          + (if count = total - 1 then (6:ℚ)/5 else 0))
        (if xmax < max x (prevX + xsize + 3/10)
              + ((1 : ℚ) + (if count = 0 then (3:ℚ)/2 else 0)
                + (if count = total - 1 then (6:ℚ)/5 else 0)) + 3/10
         then max x (prevX + xsize + 3/10)
              + ((1 : ℚ) + (if count = 0 then (3:ℚ)/2 else 0)
                + (if count = total - 1 then (6:ℚ)/5 else 0)) + 3/10
         else xmax)
        (if ymax < y + 1 then y + 1 + 3/10 else ymax)
        (dictInsert accE c (max x (prevX + xsize + 3/10), y)) hxs1
    simp only [drawRowAux]
    refine ⟨ih1, ?_, ?_⟩
    · intro z hz
      simp only [List.head?_cons, Option.mem_def, Option.some.injEq] at hz
      subst hz
      exact le_max_right _ _
    · rw [List.chain'_cons']
      refine ⟨?_, ih3⟩
      intro z hz
      have h2 := ih2 z hz
      have h3 := hxs1
      linarith

/-- Walking all rows preserves the per-row chain property of the adjusted x
coordinates, given the carried `xsize` stays ≥ 1 (it always does: it is 1
plus nonnegative end-cap bonuses). -/
theorem drawRows_xs_chain :
    ∀ (groups : List (ℚ × List (String × ℚ))) (acc : DrawAcc),
      1 ≤ acc.xsize →
      (∀ p ∈ acc.xrows, List.Chain' (fun a b => a + 1 + 3/10 ≤ b) p.2) →
      ∀ p ∈ (drawRows groups acc).xrows,
        List.Chain' (fun a b => a + 1 + 3/10 ≤ b) p.2 := by
  intro groups
  induction groups with
  | nil =>
    intro acc h1 hall
    simpa [drawRows] using hall
  | cons g rest ih =>
    intro acc h1 hall
    obtain ⟨y, lst⟩ := g
    simp only [drawRows]
    cases hs : List.insertionSort (fun a b => a.2 ≤ b.2) lst with
    | nil => exact ih acc h1 hall
    | cons hd tl =>
      obtain ⟨c0, x0⟩ := hd
      obtain ⟨r1, r2, r3⟩ :=
        drawRowAux_xs_chain y ((c0, x0) :: tl).length ((c0, x0) :: tl)
          x0 0 acc.xsize acc.xmax acc.ymax [] h1
      refine ih _ r1 ?_
      intro p hp
      rcases List.mem_append.mp hp with hp | hp
      · exact hall p hp
      · have hp2 := List.mem_singleton.mp hp
        subst hp2
        exact r3

/-- Claim C9 (amended): in every row of the normalized visual keymap,
consecutive adjusted x coordinates differ by at least
`key width + padding = 1 + 0.3` — adjacent keys never overlap.  (The
per-key formula is `max(raw_x, prev_x + xsize + padding)` where `xsize`
carries the previous key's first/last-in-row width bonuses, so the actual
gap can be larger than 1.3; see the counterexample for the claimed
`key_width` version.) -/
theorem C9_no_overlap (km : List (String × List (String × KeyPos))) :
    ∀ p ∈ (drawKeys km).xrows, List.Chain' (fun a b => a + 1 + 3/10 ≤ b) p.2 := by
  intro p hp
  refine drawRows_xs_chain (orderKeymap km) ⟨[], [], 1, 0, 0⟩ (by norm_num) ?_ p hp
  intro q hq
  exact absurd hq (List.not_mem_nil q)

/-- Witness for `C9_no_overlap`: the adjusted xs of the example layout's
single row, 1.3, 4.1, 5.4, are pairwise at least 1.3 apart. -/
theorem C9_no_overlap_witness :
    List.Chain' (fun a b => a + 1 + 3/10 ≤ b) [(13:ℚ)/10, 41/10, 27/5] :=
  C9_no_overlap exParsed.keymap (0, [(13:ℚ)/10, 41/10, 27/5])
    (by
      have h : (drawKeys exParsed.keymap).xrows = [(0, [(13:ℚ)/10, 41/10, 27/5])] := by
        with_unfolding_all rfl
      rw [h]
      exact List.mem_singleton_self _)

/-- Claim C9 (counterexample): the claimed per-key formula
`max(raw_x, prev_x + key_width + padding)` fails for the second key of the
example row: `s` has raw x = 1 and follows `a` at adjusted 1.3, so the
formula predicts `max(1, 1.3 + 1 + 0.3) = 2.6`, but the code places `s` at
4.1 (it adds the previous key's first-in-row width bonus of 1.5). -/
theorem C9_formula_cex :
    findNestedKey exCfg.visualKeymap "a" = some (13/10, 0)
    ∧ findNestedKey exCfg.visualKeymap "s" = some (41/10, 0)
    ∧ max (1:ℚ) (13/10 + 1 + 3/10) = 13/5
    ∧ (41/10 : ℚ) ≠ 13/5 :=
  ⟨by with_unfolding_all rfl, by with_unfolding_all rfl,
   by with_unfolding_all rfl, by norm_num⟩

/-! ## Claim C10: the distance metric mixes coordinate spaces -/

/-- The single-character update on the example layout in closed form. -/
theorem updateHeatmap_exCfg_single_a :
    updateHeatmap exCfg [] ["a"] = .ok ⟨ptsA, ptsA, [(13/10, 0)]⟩ := by
  have hres : resolveChar exCfg "a" = .ok ((13/10, 0), ptsA) := by
    with_unfolding_all rfl
  have hhome : exCfg.homeRow ≠ [] := by
    have h : exCfg.homeRow = [("a", (0, 0)), ("s", (1, 0)), ("shift_l", (2, 0))] := by
      with_unfolding_all rfl
    rw [h]
    simp
  have h1 : processChars exCfg [] [] ["a"] = .ok (ptsA, [(13/10, 0)]) := by
    rw [processChars_cons exCfg [] [] "a" [] (13/10, 0) ptsA hres hhome,
      List.nil_append, List.nil_append]
    rfl
  have hlen : ptsA.length = 120 := by with_unfolding_all rfl
  have hne : ptsA ≠ [] := by
    intro hc
    rw [hc] at hlen
    exact absurd hlen (by decide)
  have h2 : trimWindow ptsA = ptsA := by
    unfold trimWindow
    rw [hlen]
    rfl
  simp only [updateHeatmap, h1, h2, if_neg hne]

/-- Claim C10: the distance a resolved character adds (line 498) is the
minimum over the home-row entries — at their *raw* declared coordinates —
of the Euclidean distance to the resolved key's *adjusted* visual-keymap
position.  The operands live in different coordinate spaces: pressing the
home-row key `a` itself (raw (0,0), adjusted (1.3, 0)) adds
min(1.3, 0.3, 0.7) = 0.3 > 0. -/
theorem C10_distance_spaces :
    updateHeatmap exCfg [] ["a"] = .ok ⟨ptsA, ptsA, [(13/10, 0)]⟩
    ∧ dictGet? exCfg.homeRow "a" = some (0, 0)
    ∧ findNestedKey exCfg.visualKeymap "a" = some (13/10, 0)
    ∧ distTravelled exCfg [(13/10, 0)] = 3/10
    ∧ (0 : ℝ) < 3/10 := by
  have hhome : exCfg.homeRow = [("a", (0, 0)), ("s", (1, 0)), ("shift_l", (2, 0))] := by
    with_unfolding_all rfl
  refine ⟨updateHeatmap_exCfg_single_a, by with_unfolding_all rfl,
    by with_unfolding_all rfl, ?_, by norm_num⟩
  simp only [distTravelled, List.map, List.sum_cons, List.sum_nil, add_zero,
    homeDistance, hhome, pyMin0, List.foldl]
  norm_num
  have s169 : Real.sqrt 169 = 13 := by
    rw [show (169:ℝ) = 13^2 by norm_num, Real.sqrt_sq (by norm_num)]
  have s100 : Real.sqrt 100 = 10 := by
    rw [show (100:ℝ) = 10^2 by norm_num, Real.sqrt_sq (by norm_num)]
  have s9 : Real.sqrt 9 = 3 := by
    rw [show (9:ℝ) = 3^2 by norm_num, Real.sqrt_sq (by norm_num)]
  have s49 : Real.sqrt 49 = 7 := by
    rw [show (49:ℝ) = 7^2 by norm_num, Real.sqrt_sq (by norm_num)]
  rw [s169, s100, s9, s49]
  norm_num [min_def]

/-- Claim C7 (amended): the density grid spans `[−1, extent]` on each axis
(first sample −1, last sample the extent) with `mesh_granularity = 1000`,
but each axis carries `⌊√(granularity·extent)⌋` points — the integer
truncation of the imaginary mgrid step — so the total cell count is
`gridAxisCount xmax · gridAxisCount ymax ≈ 1000·√(xmax·ymax)`, not
`granularity·xmax·ymax`. -/
theorem C7_grid_shape (extent : ℚ) (hn : 2 ≤ gridAxisCount extent) (hx : 0 ≤ extent) :
    (gridAxis extent).head? = some (-1)
    ∧ (gridAxis extent).getLast? = some extent
    ∧ (gridAxisCount extent : ℝ) ≤ Real.sqrt ((meshGranularity : ℝ) * (extent : ℝ))
    ∧ Real.sqrt ((meshGranularity : ℝ) * (extent : ℝ)) < gridAxisCount extent + 1
    ∧ gridCellCount extent extent = gridAxisCount extent * gridAxisCount extent := by
  obtain ⟨m, hm⟩ : ∃ m, gridAxisCount extent = m + 2 :=
    ⟨gridAxisCount extent - 2, by omega⟩
  have hq : (0 : ℚ) ≤ (meshGranularity : ℚ) * extent := by positivity
  have hfl : ((⌊(meshGranularity : ℚ) * extent⌋ : ℚ)) ≤ (meshGranularity : ℚ) * extent :=
    Int.floor_le _
  have hlt : (meshGranularity : ℚ) * extent < ⌊(meshGranularity : ℚ) * extent⌋ + 1 :=
    Int.lt_floor_add_one _
  have hnn : (0 : ℤ) ≤ ⌊(meshGranularity : ℚ) * extent⌋ := Int.floor_nonneg.mpr hq
  have htn : ((⌊(meshGranularity : ℚ) * extent⌋.toNat : ℤ)) = ⌊(meshGranularity : ℚ) * extent⌋ :=
    Int.toNat_of_nonneg hnn
  have hcast : (((meshGranularity : ℚ) * extent : ℚ) : ℝ)
      = (meshGranularity : ℝ) * (extent : ℝ) := by push_cast; ring
  refine ⟨?_, ?_, ?_, ?_, rfl⟩
  · unfold gridAxis
    rw [hm, List.range_succ_eq_map]
    simp
  · unfold gridAxis
    rw [hm, List.range_succ, List.map_append, List.map_singleton, List.getLast?_concat]
    have hne : ((m : ℚ) + 1) ≠ 0 := by positivity
    congr 1
    push_cast
    rw [show ((m : ℚ) + 2 - 1) = (m : ℚ) + 1 from by ring, ← mul_div_assoc,
      mul_div_cancel_left₀ _ hne]
    ring
  · rw [Real.le_sqrt (by positivity) (by positivity)]
    have h1 : (gridAxisCount extent : ℤ)^2 ≤ ⌊(meshGranularity : ℚ) * extent⌋ := by
      rw [← htn]
      exact_mod_cast Nat.sqrt_le' _
    have h2 : ((gridAxisCount extent : ℚ))^2 ≤ (meshGranularity : ℚ) * extent := by
      calc ((gridAxisCount extent : ℚ))^2 = ((gridAxisCount extent : ℤ)^2 : ℚ) := by push_cast; ring
      _ ≤ ((⌊(meshGranularity : ℚ) * extent⌋ : ℚ)) := by exact_mod_cast h1
      _ ≤ (meshGranularity : ℚ) * extent := hfl
    rw [← hcast]
    exact_mod_cast h2
  · rw [Real.sqrt_lt' (by positivity)]
    have h1 : ⌊(meshGranularity : ℚ) * extent⌋ < ((gridAxisCount extent : ℤ) + 1)^2 := by
      rw [← htn]
      exact_mod_cast Nat.lt_succ_sqrt' _
    have h2 : (meshGranularity : ℚ) * extent < ((gridAxisCount extent : ℚ) + 1)^2 := by
      calc (meshGranularity : ℚ) * extent < ((⌊(meshGranularity : ℚ) * extent⌋ : ℚ)) + 1 := hlt
      _ ≤ (((gridAxisCount extent : ℤ) + 1)^2 : ℚ) := by
          have := h1
          have h3 : ⌊(meshGranularity : ℚ) * extent⌋ + 1 ≤ ((gridAxisCount extent : ℤ) + 1)^2 := by omega
          exact_mod_cast h3
      _ = ((gridAxisCount extent : ℚ) + 1)^2 := by push_cast; ring
    rw [← hcast]
    exact_mod_cast h2

/-- Witness for `C7_grid_shape` at extent 4 (63 points per axis). -/
theorem C7_grid_shape_witness :
    (gridAxis 4).head? = some (-1)
    ∧ (gridAxis 4).getLast? = some 4
    ∧ (gridAxisCount 4 : ℝ) ≤ Real.sqrt ((meshGranularity : ℝ) * ((4:ℚ) : ℝ))
    ∧ Real.sqrt ((meshGranularity : ℝ) * ((4:ℚ) : ℝ)) < gridAxisCount 4 + 1
    ∧ gridCellCount 4 4 = gridAxisCount 4 * gridAxisCount 4 :=
  C7_grid_shape 4
    (by
      have h0 : Int.toNat (4000 : ℤ) = (4000 : ℕ) := rfl
      have h : gridAxisCount 4 = 63 := by norm_num [gridAxisCount, meshGranularity, h0]
      omega)
    (by norm_num)
